import Mathlib

/-!
Shallow embedding of the mod_evasive core (src/mod_evasive24.c): the NTT
keyed counter store (ntt_create / ntt_find / ntt_insert / ntt_delete), the
whitelist checks (is_whitelisted / is_uri_whitelisted) and the request
classifier (access_checker), together with theorems settling the spec
claims about them.

Modelling conventions:
  - C strings become Lean String; character bytes are taken via Char.toNat
    (the keys the module builds are ASCII).
  - size_t arithmetic wraps modulo 2^64, written explicitly where the C
    code can wrap; time_t values are Int.
  - pointer mutation through a node pointer obtained from ntt_find becomes
    an in-place update of the first key-matching node of its bucket
    (updateNode below), which is the node the C pointer designates.
  - malloc results are driven by explicit Bool oracles (allocOk flags);
    PCRE2 regexes are opaque match capabilities String -> Bool.
  - snprintf buffer truncation (128/2048 byte buffers) is not modelled.
-/

namespace ModEvasive

/-- Cardinality of the C type size_t (64 bit). -/
def uint64Card : Nat := 2 ^ 64

/-- SIZE_MAX, the largest size_t value. -/
def SIZE_MAX : Nat := 2 ^ 64 - 1

/-- struct ntt_node: key, timestamp, count (the chain pointer is the list
structure of the bucket). -/
structure NttNode where
  key : String
  timestamp : Int
  count : Nat
deriving DecidableEq, Repr

/-- struct ntt: bucket count (size), item count, bucket array. -/
structure Ntt where
  size : Nat
  items : Nat
  tbl : List (List NttNode)
deriving DecidableEq, Repr

/-- ntt_hashcode: val = 5 * val + byte over the key bytes in size_t
arithmetic, then reduced modulo the table size. -/
def ntt_hashcode (size : Nat) (key : String) : Nat :=
  (key.data.foldl (fun v c => (5 * v + c.toNat) % uint64Card) 0) % size

/-- Linear scan of one bucket chain for an exact key match (the loop shared
by ntt_find, ntt_insert and ntt_delete). -/
def bucketFind (key : String) : List NttNode → Option NttNode
  | [] => none
  | n :: rest => if n.key = key then some n else bucketFind key rest

/-- Update the node the C code mutates through its pointer: the first node
of the chain whose key matches. -/
def bucketUpdate (key : String) (f : NttNode → NttNode) :
    List NttNode → List NttNode
  | [] => []
  | n :: rest => if n.key = key then f n :: rest else n :: bucketUpdate key f rest

/-- Unlink the first node whose key matches (the loop of ntt_delete);
none when the key is absent. -/
def bucketDelete (key : String) : List NttNode → Option (List NttNode)
  | [] => none
  | n :: rest =>
      if n.key = key then some rest
      else (bucketDelete key rest).map (fun b => n :: b)

/-- ntt_find. -/
def ntt_find (ntt : Ntt) (key : String) : Option NttNode :=
  bucketFind key (ntt.tbl.getD (ntt_hashcode ntt.size key) [])

/-- In-place mutation of the entry for key (the effect of writing through
the pointer returned by ntt_find). -/
def updateNode (ntt : Ntt) (key : String) (f : NttNode → NttNode) : Ntt :=
  let h := ntt_hashcode ntt.size key
  { ntt with tbl := ntt.tbl.set h (bucketUpdate key f (ntt.tbl.getD h [])) }

/-- ntt_insert.  Fails at items = SIZE_MAX.  If the key exists the node is
touched (timestamp := timestamp, count := 0) and returned.  Otherwise a new
node is allocated (allocOk models the malloc/strdup outcome); ntt->items is
incremented whether or not the allocation succeeded, and on success the new
node is linked after the last node of its chain (parent->next = new_node),
i.e. at the tail. -/
def ntt_insert (ntt : Ntt) (key : String) (timestamp : Int) (allocOk : Bool) :
    Option NttNode × Ntt :=
  if ntt.items = SIZE_MAX then (none, ntt)
  else
    match bucketFind key (ntt.tbl.getD (ntt_hashcode ntt.size key) []) with
    | some _ =>
        (some { key := key, timestamp := timestamp, count := 0 },
         updateNode ntt key (fun m => { m with timestamp := timestamp, count := 0 }))
    | none =>
        if allocOk then
          (some { key := key, timestamp := timestamp, count := 0 },
           { ntt with
               items := ntt.items + 1,
               tbl := ntt.tbl.set (ntt_hashcode ntt.size key)
                 ((ntt.tbl.getD (ntt_hashcode ntt.size key) []) ++
                   [{ key := key, timestamp := timestamp, count := 0 }]) })
        else (none, { ntt with items := ntt.items + 1 })

/-- size_t decrement with wraparound (ntt->items--). -/
def decWrap (n : Nat) : Nat := (n + SIZE_MAX) % uint64Card

/-- ntt_delete: 0 on success, -5 when the key is not found. -/
def ntt_delete (ntt : Ntt) (key : String) : Int × Ntt :=
  let h := ntt_hashcode ntt.size key
  match bucketDelete key (ntt.tbl.getD h []) with
  | some bucket => (0, { ntt with items := decWrap ntt.items, tbl := ntt.tbl.set h bucket })
  | none => (-5, ntt)

/-- ntt_prime_list (28 entries). -/
def ntt_prime_list : List Nat :=
  [53, 97, 193, 389, 769,
   1543, 3079, 6151, 12289, 24593,
   49157, 98317, 196613, 393241, 786433,
   1572869, 3145739, 6291469, 12582917, 25165843,
   50331653, 100663319, 201326611, 402653189, 805306457,
   1610612741, 3221225473, 4294967291]

/-- The index walk of ntt_create: advance while not at the last prime and
the current prime is below the requested size. -/
def prime_select : List Nat → Nat → Nat
  | [], _ => 0
  | [p], _ => p
  | p :: q :: rest, size => if p < size then prime_select (q :: rest) size else p

/-- ntt_create on the successful allocation path: bucket count from the
prime table, zero items, calloc-zeroed bucket array. -/
def ntt_create (size : Nat) : Ntt :=
  { size := prime_select ntt_prime_list size
    items := 0
    tbl := List.replicate (prime_select ntt_prime_list size) [] }

/-- evasive_config, restricted to the fields the classifier reads.  A URI
whitelist pattern is modelled as its match capability (pcre2_match of the
compiled pattern against the subject, as a Boolean). -/
structure EvasiveConfig where
  enabled : Bool
  hash_table_size : Nat
  uri_whitelist : List (String → Bool)
  page_count : Nat
  page_interval : Int
  site_count : Nat
  site_interval : Int
  blocking_period : Int
  http_reply : Int

/-- The strtok(dip, ".") loop of is_whitelisted: dot-separated tokens,
with empty tokens skipped (strtok collapses consecutive delimiters). -/
def strtok_aux (cur : List Char) : List Char → List (List Char)
  | [] => if cur = [] then [] else [cur.reverse]
  | c :: rest =>
      if c = '.' then
        if cur = [] then strtok_aux [] rest
        else cur.reverse :: strtok_aux [] rest
      else strtok_aux (c :: cur) rest

/-- The four-slot octet array of is_whitelisted: up to four tokens are
consumed; a token longer than three characters leaves its slot as the
zeroed (empty) string. -/
def octetArr (ip : String) : List String :=
  let toks := ((strtok_aux [] ip.data).map (fun cs => String.mk cs)).take 4
  toks.map (fun s => if s.length ≤ 3 then s else "") ++
    List.replicate (4 - toks.length) ""

/-- is_whitelisted: exact WHITELIST_ key, then the three wildcard-octet
keys, each looked up in the hit list. -/
def is_whitelisted (ip : String) (store : Ntt) : Bool :=
  let o := octetArr ip
  let o0 := o.getD 0 ""
  let o1 := o.getD 1 ""
  let o2 := o.getD 2 ""
  (ntt_find store ("WHITELIST_" ++ ip)).isSome
  || (ntt_find store ("WHITELIST_" ++ o0 ++ ".*.*.*")).isSome
  || (ntt_find store ("WHITELIST_" ++ o0 ++ "." ++ o1 ++ ".*.*")).isSome
  || (ntt_find store ("WHITELIST_" ++ o0 ++ "." ++ o1 ++ "." ++ o2 ++ ".*")).isSome

/-- is_uri_whitelisted: first pattern matching the request path wins. -/
def is_uri_whitelisted (uri : String) (cfg : EvasiveConfig) : Bool :=
  cfg.uri_whitelist.any (fun re => re uri)

/-- One hit-counting block of access_checker (the per-resource block at
lines 239-257 and the per-site block at lines 261-279 are this code with
key/interval/threshold instantiated).  ret0 is the verdict variable on
entry; the result is the verdict variable after the block and the store
after the block's mutations. -/
def hit_block (store : Ntt) (key ip : String) (interval : Int) (threshold : Nat)
    (reply : Int) (t : Int) (alloc : Bool) (ret0 : Int) : Int × Ntt :=
  match ntt_find store key with
  | some n =>
      if t - n.timestamp < interval ∧ threshold ≤ n.count then
        (reply,
         updateNode (ntt_insert store ip t alloc).2 key
           (fun m => { m with timestamp := t, count := (m.count + 1) % uint64Card }))
      else
        (ret0,
         updateNode
           (if interval ≤ t - n.timestamp then
              updateNode store key (fun m => { m with count := 0 })
            else store)
           key (fun m => { m with timestamp := t, count := (m.count + 1) % uint64Card }))
  | none => (ret0, (ntt_insert store key t alloc).2)

/-- The else branch of the hold check: URI whitelist, then the
per-resource and per-site hit blocks. -/
def checkHits (cfg : EvasiveConfig) (store : Ntt) (ip uri : String) (t : Int)
    (aR aS : Bool) : Int × Ntt :=
  if is_uri_whitelisted uri cfg then (0, store)
  else
    let r1 := hit_block store (ip ++ "_" ++ uri) ip cfg.page_interval cfg.page_count
      cfg.http_reply t aR 0
    hit_block r1.2 (ip ++ "_SITE") ip cfg.site_interval cfg.site_count
      cfg.http_reply t aS r1.1

/-- access_checker for a present hit list: the enabled/top-level guard,
the IP whitelist check, the hold check (deny and refresh when the bare IP
entry is within blocking_period), else checkHits. -/
def access_checker_body (cfg : EvasiveConfig) (store : Ntt) (ip uri : String)
    (prevNull mainNull : Bool) (t : Int) (aR aS : Bool) : Int × Ntt :=
  if cfg.enabled && prevNull && mainNull then
    if is_whitelisted ip store then (0, store)
    else
      match ntt_find store ip with
      | some n =>
          if t - n.timestamp < cfg.blocking_period then
            (cfg.http_reply, updateNode store ip (fun m => { m with timestamp := t }))
          else checkHits cfg store ip uri t aR aS
      | none => checkHits cfg store ip uri t aR aS
  else (0, store)

/-- access_checker: returns the final value of ret (OK = 0 or
cfg->http_reply) together with the hit list as mutated; an absent hit list
disables all classification. -/
def access_checker (cfg : EvasiveConfig) (store? : Option Ntt) (ip uri : String)
    (prevNull mainNull : Bool) (t : Int) (aR aS : Bool) : Int × Option Ntt :=
  match store? with
  | none => (0, none)
  | some store =>
      let r := access_checker_body cfg store ip uri prevNull mainNull t aR aS
      (r.1, some r.2)

/-- A sequence of top-level requests from one client to one path, with all
allocations succeeding: the list of verdicts and the final store. -/
def run_requests (cfg : EvasiveConfig) (ip uri : String) :
    Ntt → List Int → List Int × Ntt
  | store, [] => ([], store)
  | store, t :: ts =>
      let r := access_checker_body cfg store ip uri true true t true true
      let rest := run_requests cfg ip uri r.2 ts
      (r.1 :: rest.1, rest.2)

/-- The keys of a bucket chain in order. -/
def bucketKeys (b : List NttNode) : List String := b.map (fun n => n.key)

/-- Store invariant: the bucket array has the declared size, and every
entry sits in the bucket its hashed key selects, with no duplicate key in
a chain (hence none in the store). -/
def wf (st : Ntt) : Prop :=
  st.tbl.length = st.size ∧ 0 < st.size ∧
  ∀ i < st.tbl.length,
    (∀ k ∈ bucketKeys (st.tbl.getD i []), ntt_hashcode st.size k = i) ∧
    (bucketKeys (st.tbl.getD i [])).Nodup

/-- Number of entries reachable from the bucket chains. -/
def totalEntries (st : Ntt) : Nat := (st.tbl.map List.length).sum

instance (st : Ntt) : Decidable (wf st) :=
  decidable_of_iff
    (st.tbl.length = st.size ∧ 0 < st.size ∧
      ∀ i < st.tbl.length,
        (∀ k ∈ bucketKeys (st.tbl.getD i []), ntt_hashcode st.size k = i) ∧
        (bucketKeys (st.tbl.getD i [])).Nodup)
    Iff.rfl

/-- The configuration of the spec scenario: pageCount 2, pageInterval 1,
the other fields at their compiled-in defaults. -/
def cfg_scenario : EvasiveConfig :=
  { enabled := true, hash_table_size := 50, uri_whitelist := []
    page_count := 2, page_interval := 1, site_count := 50, site_interval := 1
    blocking_period := 10, http_reply := 403 }

/-- The scenario configuration with a URI whitelist pattern matching every
path. -/
def cfg_uri_all : EvasiveConfig :=
  { cfg_scenario with uri_whitelist := [fun _ => true] }

/-- A fresh store with capacity hint 50 (53 buckets). -/
def store53 : Ntt := ntt_create 50

/-- store53 with a bare client-IP entry at timestamp 0 (a hold marker). -/
def store_held : Ntt := (ntt_insert store53 "1.2.3.4" 0 true).2

/-- store53 with the whitelist entry for 1.2.3.4. -/
def store_wl : Ntt := (ntt_insert store53 "WHITELIST_1.2.3.4" 0 true).2

/-- store53 holding key "aa" (bucket 52 of 53). -/
def store_aa : Ntt := (ntt_insert store53 "aa" 0 true).2

/- ---------------------------------------------------------------------
List and bucket lemmas
--------------------------------------------------------------------- -/

theorem list_set_of_le {α : Type} : ∀ (l : List α) (i : Nat) (b : α),
    l.length ≤ i → l.set i b = l
  | [], _, _, _ => rfl
  | _ :: _, 0, _, h => absurd h (by simp)
  | a :: l, i + 1, b, h => by
      simpa using list_set_of_le l i b (by simpa using h)

theorem list_getD_of_le {α : Type} : ∀ (l : List α) (i : Nat) (d : α),
    l.length ≤ i → l.getD i d = d
  | [], _, _, _ => rfl
  | _ :: _, 0, _, h => absurd h (by simp)
  | a :: l, i + 1, d, h => by
      simpa using list_getD_of_le l i d (by simpa using h)

theorem list_getD_set_self {α : Type} : ∀ (l : List α) (i : Nat) (b d : α),
    i < l.length → (l.set i b).getD i d = b
  | [], _, _, _, h => absurd h (by simp)
  | _ :: _, 0, _, _, _ => rfl
  | a :: l, i + 1, b, d, h => by
      simpa using list_getD_set_self l i b d (by simpa using h)

theorem list_getD_set_ne {α : Type} : ∀ (l : List α) (i j : Nat) (b d : α),
    i ≠ j → (l.set i b).getD j d = l.getD j d
  | [], _, _, _, _, _ => rfl
  | _ :: _, 0, 0, _, _, h => absurd rfl h
  | _ :: _, 0, _ + 1, _, _, _ => by simp
  | _ :: _, _ + 1, 0, _, _, _ => by simp
  | a :: l, i + 1, j + 1, b, d, h => by
      simpa using list_getD_set_ne l i j b d (by omega)

theorem bucketFind_key {k : String} : ∀ {b : List NttNode} {n : NttNode},
    bucketFind k b = some n → n.key = k
  | [], _, h => by simp [bucketFind] at h
  | m :: rest, n, h => by
      by_cases hm : m.key = k
      · simp [bucketFind, hm] at h
        rw [← h, hm]
      · rw [bucketFind, if_neg hm] at h
        exact bucketFind_key h

theorem bucketFind_eq_none {k : String} : ∀ {b : List NttNode},
    bucketFind k b = none ↔ ∀ n ∈ b, n.key ≠ k
  | [] => by simp [bucketFind]
  | m :: rest => by
      by_cases hm : m.key = k
      · simp [bucketFind, hm]
      · simp [bucketFind, hm, bucketFind_eq_none (b := rest)]

theorem bucketFind_update_self {k : String} (f : NttNode → NttNode)
    (hf : ∀ m, (f m).key = m.key) : ∀ (b : List NttNode),
    bucketFind k (bucketUpdate k f b) = (bucketFind k b).map f
  | [] => rfl
  | m :: rest => by
      by_cases hm : m.key = k
      · simp [bucketFind, bucketUpdate, hm, hf m]
      · have hfm : ¬ (m.key = k) := hm
        simp only [bucketUpdate, if_neg hfm, bucketFind, if_neg hfm]
        exact bucketFind_update_self f hf rest

theorem bucketFind_update_ne {k k2 : String} (f : NttNode → NttNode)
    (hf : ∀ m, (f m).key = m.key) (hne : k2 ≠ k) : ∀ (b : List NttNode),
    bucketFind k2 (bucketUpdate k f b) = bucketFind k2 b
  | [] => rfl
  | m :: rest => by
      by_cases hm : m.key = k
      · have h1 : ¬ (f m).key = k2 := by
          rw [hf m, hm]
          exact fun h => hne h.symm
        have h2 : ¬ m.key = k2 := by
          rw [hm]
          exact fun h => hne h.symm
        simp only [bucketUpdate, if_pos hm, bucketFind, if_neg h1, if_neg h2]
      · simp only [bucketUpdate, if_neg hm, bucketFind]
        by_cases hm2 : m.key = k2
        · simp [hm2]
        · simp only [if_neg hm2]
          exact bucketFind_update_ne f hf hne rest

theorem bucketFind_append_of_none {k : String} {b2 : List NttNode} :
    ∀ {b1 : List NttNode}, bucketFind k b1 = none →
    bucketFind k (b1 ++ b2) = bucketFind k b2
  | [], _ => rfl
  | m :: rest, h => by
      by_cases hm : m.key = k
      · simp [bucketFind, hm] at h
      · rw [bucketFind, if_neg hm] at h
        rw [List.cons_append, bucketFind, if_neg hm]
        exact bucketFind_append_of_none h

theorem bucketFind_append_of_some {k : String} {n : NttNode} {b2 : List NttNode} :
    ∀ {b1 : List NttNode}, bucketFind k b1 = some n →
    bucketFind k (b1 ++ b2) = some n
  | [], h => by simp [bucketFind] at h
  | m :: rest, h => by
      by_cases hm : m.key = k
      · rw [bucketFind, if_pos hm] at h
        rw [List.cons_append, bucketFind, if_pos hm]
        exact h
      · rw [bucketFind, if_neg hm] at h
        rw [List.cons_append, bucketFind, if_neg hm]
        exact bucketFind_append_of_some h

theorem bucketUpdate_keys {k : String} (f : NttNode → NttNode)
    (hf : ∀ m, (f m).key = m.key) : ∀ (b : List NttNode),
    bucketKeys (bucketUpdate k f b) = bucketKeys b
  | [] => rfl
  | m :: rest => by
      by_cases hm : m.key = k
      · simp [bucketKeys, bucketUpdate, hm, hf m]
      · simp only [bucketUpdate, if_neg hm, bucketKeys, List.map_cons]
        have h3 := bucketUpdate_keys (k := k) f hf rest
        simp only [bucketKeys] at h3
        rw [h3]

theorem bucketUpdate_compose {k : String} (f g : NttNode → NttNode)
    (hf : ∀ m, (f m).key = m.key) : ∀ (b : List NttNode),
    bucketUpdate k g (bucketUpdate k f b) = bucketUpdate k (fun m => g (f m)) b
  | [] => rfl
  | m :: rest => by
      by_cases hm : m.key = k
      · have : (f m).key = k := by rw [hf m, hm]
        simp [bucketUpdate, hm, this]
      · simp only [bucketUpdate, if_neg hm]
        rw [bucketUpdate_compose f g hf rest]

theorem bucketDelete_sublist {k : String} : ∀ {b b2 : List NttNode},
    bucketDelete k b = some b2 → b2.Sublist b
  | [], _, h => by simp [bucketDelete] at h
  | m :: rest, b2, h => by
      by_cases hm : m.key = k
      · rw [bucketDelete, if_pos hm] at h
        cases h
        exact List.sublist_cons_self m rest
      · rw [bucketDelete, if_neg hm] at h
        cases hrec : bucketDelete k rest with
        | none => rw [hrec] at h; exact absurd h (by simp)
        | some b3 =>
            rw [hrec] at h
            simp only [Option.map_some'] at h
            cases h
            exact (bucketDelete_sublist hrec).cons₂ m

/- ---------------------------------------------------------------------
Store-level lemmas
--------------------------------------------------------------------- -/

theorem ntt_find_key {st : Ntt} {k : String} {n : NttNode}
    (h : ntt_find st k = some n) : n.key = k :=
  bucketFind_key h

theorem updateNode_size (st : Ntt) (k : String) (f : NttNode → NttNode) :
    (updateNode st k f).size = st.size := rfl

theorem updateNode_items (st : Ntt) (k : String) (f : NttNode → NttNode) :
    (updateNode st k f).items = st.items := rfl

theorem find_updateNode_self {st : Ntt} {k : String} (f : NttNode → NttNode)
    (hf : ∀ m, (f m).key = m.key) :
    ntt_find (updateNode st k f) k = (ntt_find st k).map f := by
  unfold ntt_find updateNode
  simp only
  by_cases hlen : ntt_hashcode st.size k < st.tbl.length
  · rw [list_getD_set_self _ _ _ _ hlen]
    exact bucketFind_update_self f hf _
  · rw [list_set_of_le _ _ _ (le_of_not_lt hlen),
        list_getD_of_le _ _ _ (le_of_not_lt hlen)]
    rfl

theorem find_updateNode_ne {st : Ntt} {k k2 : String} (f : NttNode → NttNode)
    (hf : ∀ m, (f m).key = m.key) (hne : k2 ≠ k) :
    ntt_find (updateNode st k f) k2 = ntt_find st k2 := by
  unfold ntt_find updateNode
  simp only
  by_cases heq : ntt_hashcode st.size k2 = ntt_hashcode st.size k
  · rw [heq]
    by_cases hlen : ntt_hashcode st.size k < st.tbl.length
    · rw [list_getD_set_self _ _ _ _ hlen]
      exact bucketFind_update_ne f hf hne _
    · rw [list_set_of_le _ _ _ (le_of_not_lt hlen)]
  · rw [list_getD_set_ne _ _ _ _ _ (fun h => heq h.symm)]

theorem find_updateNode_isSome {st : Ntt} {k k2 : String} (f : NttNode → NttNode)
    (hf : ∀ m, (f m).key = m.key) :
    (ntt_find (updateNode st k f) k2).isSome = (ntt_find st k2).isSome := by
  by_cases hkk : k2 = k
  · subst hkk
    rw [find_updateNode_self f hf]
    cases ntt_find st k2 <;> rfl
  · rw [find_updateNode_ne f hf hkk]

theorem is_whitelisted_updateNode {st : Ntt} {ip k : String} (f : NttNode → NttNode)
    (hf : ∀ m, (f m).key = m.key) :
    is_whitelisted ip (updateNode st k f) = is_whitelisted ip st := by
  unfold is_whitelisted
  simp only [find_updateNode_isSome f hf]

theorem find_insert_found {st : Ntt} {k : String} {n : NttNode} (ts : Int) (a : Bool)
    (hitems : st.items ≠ SIZE_MAX) (hfound : ntt_find st k = some n) :
    ntt_insert st k ts a =
      (some { key := k, timestamp := ts, count := 0 },
       updateNode st k (fun m => { m with timestamp := ts, count := 0 })) := by
  unfold ntt_find at hfound
  unfold ntt_insert
  rw [if_neg hitems, hfound]

theorem find_insert_absent_noalloc {st : Ntt} {k : String} (ts : Int)
    (hitems : st.items ≠ SIZE_MAX) (habs : ntt_find st k = none) :
    ntt_insert st k ts false = (none, { st with items := st.items + 1 }) := by
  unfold ntt_find at habs
  unfold ntt_insert
  rw [if_neg hitems, habs]
  rfl

theorem find_insert_absent_alloc {st : Ntt} {k : String} (ts : Int)
    (hitems : st.items ≠ SIZE_MAX) (habs : ntt_find st k = none) :
    ntt_insert st k ts true =
      (some { key := k, timestamp := ts, count := 0 },
       { st with
           items := st.items + 1,
           tbl := st.tbl.set (ntt_hashcode st.size k)
             ((st.tbl.getD (ntt_hashcode st.size k) []) ++
               [{ key := k, timestamp := ts, count := 0 }]) }) := by
  unfold ntt_find at habs
  unfold ntt_insert
  rw [if_neg hitems, habs]
  rfl

theorem find_insert_ne {st : Ntt} {k k2 : String} {ts : Int} {a : Bool}
    (hne : k2 ≠ k) :
    ntt_find (ntt_insert st k ts a).2 k2 = ntt_find st k2 := by
  by_cases hitems : st.items = SIZE_MAX
  · unfold ntt_insert
    simp [hitems]
  · cases hfind : ntt_find st k with
    | some n =>
        rw [find_insert_found ts a hitems hfind]
        exact find_updateNode_ne _ (fun m => rfl) hne
    | none =>
        cases a with
        | false =>
            rw [find_insert_absent_noalloc ts hitems hfind]
            rfl
        | true =>
            rw [find_insert_absent_alloc ts hitems hfind]
            unfold ntt_find
            dsimp only
            by_cases heq : ntt_hashcode st.size k2 = ntt_hashcode st.size k
            · rw [heq]
              by_cases hlen : ntt_hashcode st.size k < st.tbl.length
              · rw [list_getD_set_self _ _ _ _ hlen]
                cases hc : bucketFind k2 (st.tbl.getD (ntt_hashcode st.size k) []) with
                | some n2 => exact bucketFind_append_of_some hc
                | none =>
                    rw [bucketFind_append_of_none hc]
                    simp [bucketFind, show ¬ (k = k2) from fun h => hne h.symm]
              · rw [list_set_of_le _ _ _ (le_of_not_lt hlen)]
            · rw [list_getD_set_ne _ _ _ _ _ (fun h => heq h.symm)]

theorem find_insert_self_alloc {st : Ntt} {k : String} (ts : Int)
    (hlen : ntt_hashcode st.size k < st.tbl.length)
    (hitems : st.items ≠ SIZE_MAX) (habs : ntt_find st k = none) :
    ntt_find (ntt_insert st k ts true).2 k =
      some { key := k, timestamp := ts, count := 0 } := by
  rw [find_insert_absent_alloc ts hitems habs]
  unfold ntt_find at habs ⊢
  dsimp only
  rw [list_getD_set_self _ _ _ _ hlen, bucketFind_append_of_none habs]
  simp [bucketFind]

theorem find_insert_self_alloc_oor {st : Ntt} {k : String} (ts : Int)
    (hlen : st.tbl.length ≤ ntt_hashcode st.size k)
    (hitems : st.items ≠ SIZE_MAX) (habs : ntt_find st k = none) :
    ntt_find (ntt_insert st k ts true).2 k = none := by
  rw [find_insert_absent_alloc ts hitems habs]
  unfold ntt_find at habs ⊢
  dsimp only
  rw [list_set_of_le _ _ _ hlen]
  exact habs

theorem updateNode_updateNode {st : Ntt} {k : String} (f g : NttNode → NttNode)
    (hf : ∀ m, (f m).key = m.key) :
    updateNode (updateNode st k f) k g = updateNode st k (fun m => g (f m)) := by
  unfold updateNode
  simp only
  by_cases hlen : ntt_hashcode st.size k < st.tbl.length
  · rw [list_getD_set_self _ _ _ _ hlen, List.set_set, bucketUpdate_compose f g hf]
  · rw [list_set_of_le _ _ _ (le_of_not_lt hlen),
        list_getD_of_le _ _ _ (le_of_not_lt hlen)]
    cases st with
    | mk size items tbl => rfl

/- ---------------------------------------------------------------------
Invariant preservation
--------------------------------------------------------------------- -/

theorem wf_updateNode {st : Ntt} {k : String} (f : NttNode → NttNode)
    (hf : ∀ m, (f m).key = m.key) (hwf : wf st) : wf (updateNode st k f) := by
  obtain ⟨hlen, hpos, hb⟩ := hwf
  have hh : ntt_hashcode st.size k < st.tbl.length := by
    rw [hlen]
    exact Nat.mod_lt _ hpos
  unfold wf updateNode
  dsimp only
  refine ⟨by rw [List.length_set, hlen], hpos, ?_⟩
  intro i hi
  rw [List.length_set] at hi
  by_cases hik : i = ntt_hashcode st.size k
  · subst hik
    rw [list_getD_set_self _ _ _ _ hh, bucketUpdate_keys f hf]
    exact hb _ hh
  · rw [list_getD_set_ne _ _ _ _ _ (fun h => hik h.symm)]
    exact hb i hi

theorem wf_insert {st : Ntt} {k : String} {ts : Int} {a : Bool} (hwf : wf st) :
    wf (ntt_insert st k ts a).2 := by
  by_cases hitems : st.items = SIZE_MAX
  · unfold ntt_insert
    simpa [hitems] using hwf
  · cases hfind : ntt_find st k with
    | some n =>
        rw [find_insert_found ts a hitems hfind]
        exact wf_updateNode _ (fun m => rfl) hwf
    | none =>
        cases a with
        | false =>
            rw [find_insert_absent_noalloc ts hitems hfind]
            exact hwf
        | true =>
            rw [find_insert_absent_alloc ts hitems hfind]
            obtain ⟨hlen, hpos, hb⟩ := hwf
            have hh : ntt_hashcode st.size k < st.tbl.length := by
              rw [hlen]
              exact Nat.mod_lt _ hpos
            unfold wf
            dsimp only
            refine ⟨by rw [List.length_set, hlen], hpos, ?_⟩
            intro i hi
            rw [List.length_set] at hi
            by_cases hik : i = ntt_hashcode st.size k
            · subst hik
              rw [list_getD_set_self _ _ _ _ hh]
              have hbk : bucketKeys
                  (st.tbl.getD (ntt_hashcode st.size k) [] ++
                    [{ key := k, timestamp := ts, count := 0 }]) =
                  bucketKeys (st.tbl.getD (ntt_hashcode st.size k) []) ++ [k] := by
                simp [bucketKeys]
              rw [hbk]
              obtain ⟨hplace, hnodup⟩ := hb _ hh
              have hknotin : k ∉ bucketKeys (st.tbl.getD (ntt_hashcode st.size k) []) := by
                intro hmem
                unfold ntt_find at hfind
                obtain ⟨n2, hn2, hkey⟩ := List.mem_map.1 hmem
                exact (bucketFind_eq_none.1 hfind n2 hn2) hkey
              constructor
              · intro k2 hk2
                rcases List.mem_append.1 hk2 with h1 | h1
                · exact hplace k2 h1
                · have h2 : k2 = k := by simpa using h1
                  subst h2
                  rfl
              · rw [List.nodup_append]
                refine ⟨hnodup, List.nodup_singleton k, ?_⟩
                intro x hx hx2
                have hxk : x = k := by simpa using hx2
                subst hxk
                exact hknotin hx
            · rw [list_getD_set_ne _ _ _ _ _ (fun h => hik h.symm)]
              exact hb i hi

theorem wf_delete {st : Ntt} {k : String} (hwf : wf st) : wf (ntt_delete st k).2 := by
  obtain ⟨hlen, hpos, hb⟩ := hwf
  have hh : ntt_hashcode st.size k < st.tbl.length := by
    rw [hlen]
    exact Nat.mod_lt _ hpos
  unfold ntt_delete
  dsimp only
  cases hdel : bucketDelete k (st.tbl.getD (ntt_hashcode st.size k) []) with
  | none => exact ⟨hlen, hpos, hb⟩
  | some b2 =>
      dsimp only
      refine ⟨by rw [List.length_set, hlen], hpos, ?_⟩
      intro i hi
      rw [List.length_set] at hi
      by_cases hik : i = ntt_hashcode st.size k
      · subst hik
        rw [list_getD_set_self _ _ _ _ hh]
        obtain ⟨hplace, hnodup⟩ := hb _ hh
        have hsub : (bucketKeys b2).Sublist
            (bucketKeys (st.tbl.getD (ntt_hashcode st.size k) [])) :=
          (bucketDelete_sublist hdel).map _
        exact ⟨fun k2 hk2 => hplace k2 (hsub.subset hk2),
               List.Nodup.sublist hsub hnodup⟩
      · rw [list_getD_set_ne _ _ _ _ _ (fun h => hik h.symm)]
        exact hb i hi

/- ---------------------------------------------------------------------
Prime table selection
--------------------------------------------------------------------- -/

theorem prime_select_mem : ∀ (l : List Nat) (s : Nat), l ≠ [] →
    prime_select l s ∈ l
  | [], _, h => absurd rfl h
  | [p], s, _ => by simp [prime_select]
  | p :: q :: rest, s, _ => by
      simp only [prime_select]
      by_cases hps : p < s
      · rw [if_pos hps]
        exact List.mem_cons_of_mem p (prime_select_mem (q :: rest) s (by simp))
      · rw [if_neg hps]
        exact List.mem_cons_self p _

theorem prime_select_spec : ∀ (l : List Nat) (s : Nat),
    List.Pairwise (· < ·) l → (∃ p ∈ l, s ≤ p) →
    s ≤ prime_select l s ∧ ∀ p ∈ l, s ≤ p → prime_select l s ≤ p
  | [], _, _, hex => by simp at hex
  | [p], s, _, hex => by
      have hsp : s ≤ p := by
        obtain ⟨x, hx, hsx⟩ := hex
        have hxp : x = p := by simpa using hx
        omega
      constructor
      · simpa [prime_select] using hsp
      · intro y hy _
        have hyp : y = p := by simpa using hy
        simp [prime_select, hyp]
  | p :: q :: rest, s, hpw, hex => by
      by_cases hps : p < s
      · have hsel : prime_select (p :: q :: rest) s = prime_select (q :: rest) s := by
          simp only [prime_select]
          rw [if_pos hps]
        have hex2 : ∃ x ∈ q :: rest, s ≤ x := by
          obtain ⟨x, hx, hsx⟩ := hex
          rcases List.mem_cons.1 hx with h1 | h1
          · subst h1
            omega
          · exact ⟨x, h1, hsx⟩
        have IH := prime_select_spec (q :: rest) s (List.pairwise_cons.1 hpw).2 hex2
        rw [hsel]
        refine ⟨IH.1, ?_⟩
        intro x hx hsx
        rcases List.mem_cons.1 hx with h1 | h1
        · subst h1
          omega
        · exact IH.2 x h1 hsx
      · have hsel : prime_select (p :: q :: rest) s = p := by
          simp only [prime_select]
          rw [if_neg hps]
        rw [hsel]
        refine ⟨by omega, ?_⟩
        intro x hx _
        rcases List.mem_cons.1 hx with h1 | h1
        · omega
        · have := (List.pairwise_cons.1 hpw).1 x h1
          omega

theorem prime_select_all_lt : ∀ (l : List Nat) (x s : Nat),
    (∀ p ∈ x :: l, p < s) →
    prime_select (x :: l) s = (x :: l).getLast (by simp)
  | [], x, s, _ => by simp [prime_select, List.getLast]
  | y :: rest, x, s, hall => by
      have hx : x < s := hall x (by simp)
      have hrec := prime_select_all_lt rest y s
        (fun p hp => hall p (List.mem_cons_of_mem x hp))
      simp only [prime_select]
      rw [if_pos hx, hrec]
      exact (List.getLast_cons (by simp)).symm

/- ---------------------------------------------------------------------
Classifier lemmas
--------------------------------------------------------------------- -/

theorem hit_block_fst_none {store : Ntt} {key ip : String} {interval : Int}
    {threshold : Nat} {reply t : Int} {a : Bool} {ret0 : Int}
    (h : ntt_find store key = none) :
    (hit_block store key ip interval threshold reply t a ret0).1 = ret0 := by
  unfold hit_block
  rw [h]

theorem hit_block_fst_some {store : Ntt} {key ip : String} {interval : Int}
    {threshold : Nat} {reply t : Int} {a : Bool} {ret0 : Int} {n : NttNode}
    (h : ntt_find store key = some n) :
    (hit_block store key ip interval threshold reply t a ret0).1 =
      if t - n.timestamp < interval ∧ threshold ≤ n.count then reply else ret0 := by
  unfold hit_block
  rw [h]
  dsimp only
  by_cases hc : t - n.timestamp < interval ∧ threshold ≤ n.count
  · rw [if_pos hc, if_pos hc]
  · rw [if_neg hc, if_neg hc]

theorem hit_block_fst_alloc {store : Ntt} {key ip : String} {interval : Int}
    {threshold : Nat} {reply t : Int} {ret0 : Int} (a a2 : Bool) :
    (hit_block store key ip interval threshold reply t a ret0).1 =
      (hit_block store key ip interval threshold reply t a2 ret0).1 := by
  cases h : ntt_find store key with
  | none => rw [hit_block_fst_none h, hit_block_fst_none h]
  | some n => rw [hit_block_fst_some h, hit_block_fst_some h]

theorem hit_block_deny {store : Ntt} {key ip : String} {interval : Int}
    {threshold : Nat} {reply t : Int} {a : Bool} {ret0 : Int} {n : NttNode}
    (h : ntt_find store key = some n)
    (hc : t - n.timestamp < interval ∧ threshold ≤ n.count) :
    hit_block store key ip interval threshold reply t a ret0 =
      (reply, updateNode (ntt_insert store ip t a).2 key
        (fun m => { m with timestamp := t, count := (m.count + 1) % uint64Card })) := by
  unfold hit_block
  rw [h]
  dsimp only
  rw [if_pos hc]

theorem hit_block_nodeny {store : Ntt} {key ip : String} {interval : Int}
    {threshold : Nat} {reply t : Int} {a : Bool} {ret0 : Int} {n : NttNode}
    (h : ntt_find store key = some n)
    (hc : ¬ (t - n.timestamp < interval ∧ threshold ≤ n.count)) :
    hit_block store key ip interval threshold reply t a ret0 =
      (ret0, updateNode
        (if interval ≤ t - n.timestamp then
           updateNode store key (fun m => { m with count := 0 })
         else store)
        key (fun m => { m with timestamp := t, count := (m.count + 1) % uint64Card })) := by
  unfold hit_block
  rw [h]
  dsimp only
  rw [if_neg hc]

theorem hit_block_absent {store : Ntt} {key ip : String} {interval : Int}
    {threshold : Nat} {reply t : Int} {a : Bool} {ret0 : Int}
    (h : ntt_find store key = none) :
    hit_block store key ip interval threshold reply t a ret0 =
      (ret0, (ntt_insert store key t a).2) := by
  unfold hit_block
  rw [h]

theorem hit_block_expired {store : Ntt} {key ip : String} {interval : Int}
    {threshold : Nat} {reply t : Int} {a : Bool} {ret0 : Int} {n : NttNode}
    (h : ntt_find store key = some n) (hexp : t - n.timestamp = interval) :
    hit_block store key ip interval threshold reply t a ret0 =
      (ret0, updateNode store key (fun m => { m with timestamp := t, count := 1 })) := by
  rw [hit_block_nodeny h (by omega)]
  rw [if_pos (by omega : interval ≤ t - n.timestamp)]
  rw [updateNode_updateNode (fun m => { m with count := 0 })
    (fun m => { m with timestamp := t, count := (m.count + 1) % uint64Card })
    (fun m => rfl)]
  refine congrArg (Prod.mk ret0) ?_
  refine congrArg (updateNode store key) ?_
  funext m
  norm_num [uint64Card]

theorem string_append_length_ne {s t : String} (ht : t.length ≠ 0) :
    s ++ t ≠ s := by
  intro h
  have h2 := congrArg String.length h
  rw [String.length_append] at h2
  omega

theorem resource_key_ne_ip (ip uri : String) : ip ++ "_" ++ uri ≠ ip := by
  intro h
  have h2 := congrArg String.length h
  rw [String.length_append, String.length_append] at h2
  have h3 : ("_" : String).length = 1 := rfl
  omega

theorem site_key_ne_ip (ip : String) : ip ++ "_SITE" ≠ ip :=
  string_append_length_ne (by decide)

theorem body_held {cfg : EvasiveConfig} {store : Ntt} {ip uri : String}
    {t : Int} {aR aS : Bool} {n : NttNode}
    (hE : cfg.enabled = true) (hw : is_whitelisted ip store = false)
    (hn : ntt_find store ip = some n)
    (hh : t - n.timestamp < cfg.blocking_period) :
    access_checker_body cfg store ip uri true true t aR aS =
      (cfg.http_reply, updateNode store ip (fun m => { m with timestamp := t })) := by
  unfold access_checker_body
  simp [hE, hw, hn, hh]

theorem body_else {cfg : EvasiveConfig} {store : Ntt} {ip uri : String}
    {t : Int} {aR aS : Bool}
    (hE : cfg.enabled = true) (hw : is_whitelisted ip store = false)
    (hhold : ∀ n, ntt_find store ip = some n →
      cfg.blocking_period ≤ t - n.timestamp) :
    access_checker_body cfg store ip uri true true t aR aS =
      checkHits cfg store ip uri t aR aS := by
  unfold access_checker_body
  cases hn : ntt_find store ip with
  | none => simp [hE, hw, hn]
  | some n =>
      have h1 : ¬ (t - n.timestamp < cfg.blocking_period) := by
        have := hhold n hn
        omega
      simp [hE, hw, hn, h1]

theorem run_requests_held {cfg : EvasiveConfig} {ip uri : String}
    (hE : cfg.enabled = true) :
    ∀ (times : List Int) (store : Ntt) (n : NttNode),
    is_whitelisted ip store = false → ntt_find store ip = some n →
    List.Chain (fun a b => b - a < cfg.blocking_period) n.timestamp times →
    (run_requests cfg ip uri store times).1 = times.map (fun _ => cfg.http_reply)
  | [], _, _, _, _, _ => rfl
  | t1 :: rest, store, n, hw, hn, hch => by
      have hc1 : t1 - n.timestamp < cfg.blocking_period := (List.chain_cons.1 hch).1
      have hbody : access_checker_body cfg store ip uri true true t1 true true =
          (cfg.http_reply, updateNode store ip (fun m => { m with timestamp := t1 })) :=
        body_held hE hw hn hc1
      have hfind2 : ntt_find (updateNode store ip (fun m => { m with timestamp := t1 })) ip
          = some { n with timestamp := t1 } := by
        rw [find_updateNode_self (fun m => { m with timestamp := t1 }) (fun m => rfl), hn]
        rfl
      have hw2 : is_whitelisted ip (updateNode store ip (fun m => { m with timestamp := t1 }))
          = false := by
        rw [is_whitelisted_updateNode (fun m => { m with timestamp := t1 }) (fun m => rfl)]
        exact hw
      have hch2 : List.Chain (fun a b => b - a < cfg.blocking_period)
          (({ n with timestamp := t1 } : NttNode)).timestamp rest :=
        (List.chain_cons.1 hch).2
      have IH : (run_requests cfg ip uri
            (updateNode store ip (fun m => { m with timestamp := t1 })) rest).1 =
          rest.map (fun _ => cfg.http_reply) :=
        run_requests_held hE rest _ _ hw2 hfind2 hch2
      unfold run_requests
      rw [hbody]
      simp only [List.map_cons]
      exact congrArg (cfg.http_reply :: ·) IH

theorem hit_block_fst_congr {store store2 : Ntt} {key ip ip2 : String}
    {interval : Int} {threshold : Nat} {reply t : Int} {ret0 : Int} {a a2 : Bool}
    (h : ntt_find store key = ntt_find store2 key) :
    (hit_block store key ip interval threshold reply t a ret0).1 =
      (hit_block store2 key ip2 interval threshold reply t a2 ret0).1 := by
  cases hh : ntt_find store2 key with
  | none => rw [hit_block_fst_none (h.trans hh), hit_block_fst_none hh]
  | some n => rw [hit_block_fst_some (h.trans hh), hit_block_fst_some hh]

theorem checkHits_fst_alloc {cfg : EvasiveConfig} {store : Ntt} {ip uri : String}
    {t : Int} (hsc : 0 < cfg.site_count) (a1 a2 a3 a4 : Bool) :
    (checkHits cfg store ip uri t a1 a2).1 = (checkHits cfg store ip uri t a3 a4).1 := by
  unfold checkHits
  by_cases hu : is_uri_whitelisted uri cfg = true
  · rw [if_pos hu, if_pos hu]
  · rw [if_neg hu, if_neg hu]
    dsimp only
    cases hrf : ntt_find store (ip ++ "_" ++ uri) with
    | none =>
        rw [hit_block_absent (a := a1) hrf, hit_block_absent (a := a3) hrf]
        by_cases hks : (ip ++ "_SITE") = (ip ++ "_" ++ uri)
        · have key0 : ∀ (a b : Bool),
              (hit_block (ntt_insert store (ip ++ "_" ++ uri) t a).2 (ip ++ "_" ++ uri)
                ip cfg.site_interval cfg.site_count cfg.http_reply t b 0).1 = 0 := by
            intro a b
            by_cases hmax : store.items = SIZE_MAX
            · have e1 : (ntt_insert store (ip ++ "_" ++ uri) t a).2 = store := by
                unfold ntt_insert
                rw [if_pos hmax]
              rw [e1, hit_block_fst_none hrf]
            · cases a with
              | false =>
                  rw [find_insert_absent_noalloc t hmax hrf]
                  exact hit_block_fst_none hrf
              | true =>
                  by_cases hlen : ntt_hashcode store.size (ip ++ "_" ++ uri) < store.tbl.length
                  · rw [hit_block_fst_some (find_insert_self_alloc t hlen hmax hrf)]
                    rw [if_neg ?hneg]
                    case hneg =>
                      intro hand
                      have h2 := hand.2
                      simp only at h2
                      omega
                  · exact hit_block_fst_none (find_insert_self_alloc_oor t (le_of_not_lt hlen) hmax hrf)
          rw [hks, key0 a1 a2, key0 a3 a4]
        · have hf2 : ∀ a : Bool,
              ntt_find (ntt_insert store (ip ++ "_" ++ uri) t a).2 (ip ++ "_SITE") =
                ntt_find store (ip ++ "_SITE") :=
            fun a => find_insert_ne hks
          exact hit_block_fst_congr ((hf2 a1).trans (hf2 a3).symm)
    | some n =>
        by_cases hcnd : t - n.timestamp < cfg.page_interval ∧ cfg.page_count ≤ n.count
        · rw [hit_block_deny (a := a1) hrf hcnd, hit_block_deny (a := a3) hrf hcnd]
          have hfeq : ntt_find (updateNode (ntt_insert store ip t a1).2 (ip ++ "_" ++ uri)
                (fun m => { m with timestamp := t, count := (m.count + 1) % uint64Card }))
                (ip ++ "_SITE") =
              ntt_find (updateNode (ntt_insert store ip t a3).2 (ip ++ "_" ++ uri)
                (fun m => { m with timestamp := t, count := (m.count + 1) % uint64Card }))
                (ip ++ "_SITE") := by
            by_cases hks : (ip ++ "_SITE") = (ip ++ "_" ++ uri)
            · rw [hks]
              rw [find_updateNode_self
                    (fun m => { m with timestamp := t, count := (m.count + 1) % uint64Card })
                    (fun m => rfl),
                  find_updateNode_self
                    (fun m => { m with timestamp := t, count := (m.count + 1) % uint64Card })
                    (fun m => rfl)]
              rw [find_insert_ne (resource_key_ne_ip ip uri),
                  find_insert_ne (resource_key_ne_ip ip uri)]
            · rw [find_updateNode_ne
                    (fun m => { m with timestamp := t, count := (m.count + 1) % uint64Card })
                    (fun m => rfl) hks,
                  find_updateNode_ne
                    (fun m => { m with timestamp := t, count := (m.count + 1) % uint64Card })
                    (fun m => rfl) hks]
              rw [find_insert_ne (site_key_ne_ip ip), find_insert_ne (site_key_ne_ip ip)]
          exact hit_block_fst_congr hfeq
        · rw [hit_block_nodeny (a := a1) hrf hcnd, hit_block_nodeny (a := a3) hrf hcnd]
          exact hit_block_fst_alloc a2 a4

/- ---------------------------------------------------------------------
Claim theorems
--------------------------------------------------------------------- -/

/-- C1, counterexample: with pageCount 2 and pageInterval 1, three
consecutive top-level requests to /x from 1.2.3.4 at t = 0, 0, 0 do NOT
produce pass, pass, deny: a fresh per-resource entry is inserted with
count 0 and the count is only incremented when the entry is found, so the
third request still passes. -/
theorem c1_counterexample :
    ¬ (run_requests cfg_scenario "1.2.3.4" "/x" (ntt_create 50) [0, 0, 0]).1 =
      [0, 0, 403] := by decide

/-- C1, amended: with pageCount 2 and pageInterval 1, four consecutive
top-level requests to the same path from the same non-whitelisted,
non-held client IP, all at timestamp t = 0, produce the verdicts pass,
pass, pass, deny (the fourth request within the window is the first one
that sees a stored count of at least pageCount). -/
theorem c1_fourth_request_denied :
    (run_requests cfg_scenario "1.2.3.4" "/x" (ntt_create 50) [0, 0, 0, 0]).1 =
      [0, 0, 0, 403] := by decide

/-- C2: for a top-level request from an enabled scope and a non-whitelisted
client IP whose bare-IP entry satisfies now - lastSeen < blocking_period,
the classifier denies with the configured status and refreshes that
entry's lastSeen to now, leaving everything else in the store untouched
and never consulting the URI whitelist or the windows (uri and the
configured patterns are arbitrary and absent from the result); a stream of
further requests, each within blocking_period of the previous one, is
denied throughout; and once the gap reaches blocking_period the hold
branch no longer applies (the request takes the normal path). -/
theorem c2_hold_deny_renew_lapse (cfg : EvasiveConfig) (store : Ntt)
    (ip uri : String) (t : Int) (aR aS : Bool) (n : NttNode)
    (hE : cfg.enabled = true) (hw : is_whitelisted ip store = false)
    (hn : ntt_find store ip = some n)
    (hh : t - n.timestamp < cfg.blocking_period) :
    access_checker cfg (some store) ip uri true true t aR aS =
      (cfg.http_reply,
       some (updateNode store ip (fun m => { m with timestamp := t })))
    ∧ (∀ times : List Int,
        List.Chain (fun a b => b - a < cfg.blocking_period) t times →
        (run_requests cfg ip uri
          (updateNode store ip (fun m => { m with timestamp := t })) times).1 =
          times.map (fun _ => cfg.http_reply))
    ∧ (∀ t2 : Int, cfg.blocking_period ≤ t2 - t →
        access_checker_body cfg
          (updateNode store ip (fun m => { m with timestamp := t }))
          ip uri true true t2 aR aS =
        checkHits cfg
          (updateNode store ip (fun m => { m with timestamp := t }))
          ip uri t2 aR aS) := by
  have hb : access_checker_body cfg store ip uri true true t aR aS =
      (cfg.http_reply, updateNode store ip (fun m => { m with timestamp := t })) :=
    body_held hE hw hn hh
  have hfind2 : ntt_find (updateNode store ip (fun m => { m with timestamp := t })) ip
      = some { n with timestamp := t } := by
    rw [find_updateNode_self (fun m => { m with timestamp := t }) (fun m => rfl), hn]
    rfl
  have hw2 : is_whitelisted ip (updateNode store ip (fun m => { m with timestamp := t }))
      = false := by
    rw [is_whitelisted_updateNode (fun m => { m with timestamp := t }) (fun m => rfl)]
    exact hw
  refine ⟨?_, ?_, ?_⟩
  · unfold access_checker
    dsimp only
    rw [hb]
  · intro times hch
    exact run_requests_held hE times _ { n with timestamp := t } hw2 hfind2 hch
  · intro t2 h2
    refine body_else hE hw2 ?_
    intro n2 hn2
    rw [hfind2] at hn2
    cases hn2
    exact h2

/-- C2 witness: a concrete held client (bare entry at t = 0, request at
t = 5, blocking_period 10) is denied and its entry refreshed. -/
theorem c2_witness :
    access_checker cfg_scenario (some store_held) "1.2.3.4" "/x" true true 5 true true =
      (403, some (updateNode store_held "1.2.3.4"
        (fun m => { m with timestamp := 5 }))) :=
  (c2_hold_deny_renew_lapse cfg_scenario store_held "1.2.3.4" "/x" 5 true true
    { key := "1.2.3.4", timestamp := 0, count := 0 }
    rfl (by decide) (by decide) (by decide)).1

/-- C3, counterexample: a colliding insert links the new entry at the TAIL
of the bucket chain, not at the head as claimed: "aa" and "k/" both hash
to bucket 52 of 53; after inserting "aa" and then "k/", the head of that
chain is still the "aa" entry, not the newly created "k/" entry. -/
theorem c3_counterexample :
    ¬ (((ntt_insert store_aa "k/" 0 true).2.tbl.getD
          (ntt_hashcode (ntt_insert store_aa "k/" 0 true).2.size "k/") []).head? =
        some { key := "k/", timestamp := 0, count := 0 }) := by decide

/-- C3, amended: for every store and key: if an entry with that key exists
(and the item count is not at SIZE_MAX), insertOrTouch resets its count to
0, sets its lastSeen to the given timestamp, and returns that same entry;
if the key is absent, it allocates a new entry with count 0, links it at
the TAIL (end) of its bucket's chain, increments the store's item count,
and returns it; it returns nothing when the store's item count is already
at its representable maximum. -/
theorem c3_insert_or_touch (st : Ntt) (k : String) (ts : Int) :
    (∀ (n : NttNode) (a : Bool), st.items ≠ SIZE_MAX → ntt_find st k = some n →
      ntt_insert st k ts a =
        (some { key := k, timestamp := ts, count := 0 },
         updateNode st k (fun m => { m with timestamp := ts, count := 0 }))
      ∧ (ntt_insert st k ts a).2.items = st.items
      ∧ ntt_find (ntt_insert st k ts a).2 k =
          some { key := k, timestamp := ts, count := 0 })
    ∧ (st.items ≠ SIZE_MAX → ntt_find st k = none →
      ntt_insert st k ts true =
        (some { key := k, timestamp := ts, count := 0 },
         { st with
             items := st.items + 1,
             tbl := st.tbl.set (ntt_hashcode st.size k)
               ((st.tbl.getD (ntt_hashcode st.size k) []) ++
                 [{ key := k, timestamp := ts, count := 0 }]) }))
    ∧ (st.items = SIZE_MAX → ∀ a, ntt_insert st k ts a = (none, st)) := by
  refine ⟨?_, ?_, ?_⟩
  · intro n a hitems hfound
    have he := find_insert_found ts a hitems hfound
    refine ⟨he, by rw [he]; rfl, ?_⟩
    rw [he]
    rw [find_updateNode_self (fun m => { m with timestamp := ts, count := 0 })
      (fun m => rfl), hfound]
    have hk := ntt_find_key hfound
    simp [hk]
  · intro hitems habs
    exact find_insert_absent_alloc ts hitems habs
  · intro hmax a
    unfold ntt_insert
    rw [if_pos hmax]

/-- C3 witness: touching the existing "aa" entry of a concrete store at a
new timestamp resets its count and refreshes its timestamp. -/
theorem c3_witness :
    ntt_insert store_aa "aa" 7 true =
      (some { key := "aa", timestamp := 7, count := 0 },
       updateNode store_aa "aa" (fun m => { m with timestamp := 7, count := 0 }))
    ∧ ntt_find (ntt_insert store_aa "aa" 7 true).2 "aa" =
        some { key := "aa", timestamp := 7, count := 0 } := by
  have h := (c3_insert_or_touch store_aa "aa" 7).1
    { key := "aa", timestamp := 0, count := 0 } true (by decide) (by decide)
  exact ⟨h.1, h.2.2⟩

/-- C4: window membership is decided by strict less-than on integer-second
deltas.  When now - lastSeen equals the length exactly: the bare-IP hold
does not deny (the classifier takes the normal path), and a per-resource
or per-site block does not deny either - it resets the entry's count to 0
and then increments it, leaving count 1 and the incoming verdict
unchanged. -/
theorem c4_exact_boundary_expired :
    (∀ (cfg : EvasiveConfig) (store : Ntt) (ip uri : String) (t : Int)
        (aR aS : Bool) (n : NttNode),
      cfg.enabled = true → is_whitelisted ip store = false →
      ntt_find store ip = some n → t - n.timestamp = cfg.blocking_period →
      access_checker cfg (some store) ip uri true true t aR aS =
        ((checkHits cfg store ip uri t aR aS).1,
         some (checkHits cfg store ip uri t aR aS).2))
    ∧ (∀ (store : Ntt) (key ip : String) (interval : Int) (threshold : Nat)
        (reply t : Int) (a : Bool) (ret0 : Int) (n : NttNode),
      ntt_find store key = some n → t - n.timestamp = interval →
      hit_block store key ip interval threshold reply t a ret0 =
        (ret0, updateNode store key
          (fun m => { m with timestamp := t, count := 1 }))) := by
  constructor
  · intro cfg store ip uri t aR aS n hE hw hn heq
    have hb : access_checker_body cfg store ip uri true true t aR aS =
        checkHits cfg store ip uri t aR aS := by
      refine body_else hE hw ?_
      intro n2 hn2
      rw [hn] at hn2
      cases hn2
      omega
    unfold access_checker
    dsimp only
    rw [hb]
  · intro store key ip interval threshold reply t a ret0 n hn heq
    exact hit_block_expired hn heq

/-- C4 witness: a held entry whose age is exactly blocking_period falls
through to the normal path, and a per-resource entry whose age is exactly
the interval is reset to count 1 without a deny. -/
theorem c4_witness :
    access_checker cfg_scenario (some store_held) "1.2.3.4" "/x" true true 10 true true =
      ((checkHits cfg_scenario store_held "1.2.3.4" "/x" 10 true true).1,
       some (checkHits cfg_scenario store_held "1.2.3.4" "/x" 10 true true).2)
    ∧ hit_block store_aa "aa" "1.2.3.4" 5 2 403 5 true 0 =
        (0, updateNode store_aa "aa" (fun m => { m with timestamp := 5, count := 1 })) :=
  ⟨c4_exact_boundary_expired.1 cfg_scenario store_held "1.2.3.4" "/x" 10 true true
      { key := "1.2.3.4", timestamp := 0, count := 0 } rfl (by decide) (by decide) (by decide),
   c4_exact_boundary_expired.2 store_aa "aa" "1.2.3.4" 5 2 403 5 true 0
      { key := "aa", timestamp := 0, count := 0 } (by decide) (by decide)⟩

/-- C5: when the client IP is not whitelisted and not currently held (its
bare entry, if any, has aged at least blocking_period), a request whose
path matches the URI whitelist passes and the store is left completely
untouched (no per-resource or per-site counting); but when the client IS
held, the URI whitelist match is never reached: the request is denied and
the hold refreshed, because the hold check precedes the URI whitelist
check. -/
theorem c5_uri_whitelist_order (cfg : EvasiveConfig) (store : Ntt)
    (ip uri : String) (t : Int) (aR aS : Bool)
    (hE : cfg.enabled = true) (hw : is_whitelisted ip store = false)
    (hu : is_uri_whitelisted uri cfg = true) :
    ((∀ n, ntt_find store ip = some n → cfg.blocking_period ≤ t - n.timestamp) →
      access_checker cfg (some store) ip uri true true t aR aS = (0, some store))
    ∧ (∀ n, ntt_find store ip = some n → t - n.timestamp < cfg.blocking_period →
      access_checker cfg (some store) ip uri true true t aR aS =
        (cfg.http_reply,
         some (updateNode store ip (fun m => { m with timestamp := t })))) := by
  constructor
  · intro hhold
    have hb : access_checker_body cfg store ip uri true true t aR aS =
        checkHits cfg store ip uri t aR aS := body_else hE hw hhold
    have hc : checkHits cfg store ip uri t aR aS = (0, store) := by
      unfold checkHits
      rw [if_pos hu]
    unfold access_checker
    dsimp only
    rw [hb, hc]
  · intro n hn hh
    have hb : access_checker_body cfg store ip uri true true t aR aS =
        (cfg.http_reply, updateNode store ip (fun m => { m with timestamp := t })) :=
      body_held hE hw hn hh
    unfold access_checker
    dsimp only
    rw [hb]

/-- C5 witness: with a match-everything URI whitelist pattern, a fresh
(non-held) client passes with the store unchanged. -/
theorem c5_witness :
    access_checker cfg_uri_all (some store53) "1.2.3.4" "/x" true true 0 true true =
      (0, some store53) := by
  have h := (c5_uri_whitelist_order cfg_uri_all store53 "1.2.3.4" "/x" 0 true true
    rfl (by decide) rfl).1
  apply h
  intro n hn
  rw [show ntt_find store53 "1.2.3.4" = none from by decide] at hn
  exact absurd hn (by simp)

/-- C6: a request from a client IP matching the IP whitelist (exact or
wildcard-octet key present in the store) passes and the classifier
performs no store mutation whatsoever - the returned store is the input
store, for every configuration, path, top-level flags, timestamp and
allocation outcome. -/
theorem c6_whitelist_pass_no_mutation (cfg : EvasiveConfig) (store : Ntt)
    (ip uri : String) (prevNull mainNull : Bool) (t : Int) (aR aS : Bool)
    (hw : is_whitelisted ip store = true) :
    access_checker cfg (some store) ip uri prevNull mainNull t aR aS =
      (0, some store) := by
  have hb : access_checker_body cfg store ip uri prevNull mainNull t aR aS =
      (0, store) := by
    unfold access_checker_body
    by_cases hg : (cfg.enabled && prevNull && mainNull) = true
    · rw [if_pos hg, hw]
      simp
    · rw [if_neg hg]
  unfold access_checker
  dsimp only
  rw [hb]

/-- C6 witness: with the whitelist entry WHITELIST_1.2.3.4 in the store,
a request from 1.2.3.4 passes and the store is returned unchanged. -/
theorem c6_witness :
    access_checker cfg_scenario (some store_wl) "1.2.3.4" "/x" true true 0 true true =
      (0, some store_wl) :=
  c6_whitelist_pass_no_mutation cfg_scenario store_wl "1.2.3.4" "/x" true true 0 true true
    (by decide)

/-- C7: a lookup only ever returns an entry whose key is the looked-up key
(so find(k2) can never return the entry created for k1 when k1 and k2
differ, collisions or not), and insert and delete both preserve the store
invariant: the bucket array has the declared size, every entry sits in the
chain selected by hashing its key modulo the table size, and no two
entries of the store share a key. -/
theorem c7_find_key_and_invariants :
    (∀ (st : Ntt) (k : String) (n : NttNode), ntt_find st k = some n → n.key = k)
    ∧ (∀ (st : Ntt) (k : String) (ts : Int) (a : Bool),
        wf st → wf (ntt_insert st k ts a).2)
    ∧ (∀ (st : Ntt) (k : String), wf st → wf (ntt_delete st k).2) :=
  ⟨fun _ _ _ h => ntt_find_key h,
   fun _ _ _ _ hwf => wf_insert hwf,
   fun _ _ hwf => wf_delete hwf⟩

/-- C7 witness: the entry found for "aa" has key "aa", and concrete
inserts and deletes keep a concrete store well formed. -/
theorem c7_witness :
    ({ key := "aa", timestamp := 0, count := 0 } : NttNode).key = "aa"
    ∧ wf (ntt_insert store53 "aa" 0 true).2
    ∧ wf (ntt_delete store_aa "aa").2 :=
  ⟨c7_find_key_and_invariants.1 store_aa "aa"
      { key := "aa", timestamp := 0, count := 0 } (by decide),
   c7_find_key_and_invariants.2.1 store53 "aa" 0 true (by decide),
   c7_find_key_and_invariants.2.2 store_aa "aa" (by decide)⟩

/-- C8: create selects as table size the first prime of the fixed
ascending table that is at least the capacity hint - which, the table
being ascending, is the smallest such prime - clamped to the largest
prime 4294967291 when the hint exceeds every entry; a hint of 50 resolves
to 53. -/
theorem c8_create_table_size :
    (ntt_create 50).size = 53
    ∧ (∀ hint : Nat, (ntt_create hint).size = prime_select ntt_prime_list hint)
    ∧ (∀ hint : Nat, prime_select ntt_prime_list hint ∈ ntt_prime_list)
    ∧ (∀ hint : Nat, hint ≤ 4294967291 →
        hint ≤ prime_select ntt_prime_list hint ∧
        ∀ p ∈ ntt_prime_list, hint ≤ p → prime_select ntt_prime_list hint ≤ p)
    ∧ (∀ hint : Nat, 4294967291 < hint →
        prime_select ntt_prime_list hint = 4294967291) := by
  refine ⟨by decide, fun _ => rfl, fun hint => prime_select_mem _ _ (by decide), ?_, ?_⟩
  · intro hint hle
    exact prime_select_spec _ _ (by decide) ⟨4294967291, by decide, hle⟩
  · intro hint hgt
    have hbound : ∀ p ∈ ntt_prime_list, p ≤ 4294967291 := by decide
    have hall : ∀ p ∈ ntt_prime_list, p < hint := by
      intro p hp
      have := hbound p hp
      omega
    rw [show ntt_prime_list =
        53 :: [97, 193, 389, 769,
          1543, 3079, 6151, 12289, 24593,
          49157, 98317, 196613, 393241, 786433,
          1572869, 3145739, 6291469, 12582917, 25165843,
          50331653, 100663319, 201326611, 402653189, 805306457,
          1610612741, 3221225473, 4294967291] from rfl] at hall ⊢
    rw [prime_select_all_lt _ _ _ hall]
    decide

/-- C8 witness: a hint of 50 satisfies the lower-bound property, and a
hint above the largest prime clamps to it. -/
theorem c8_witness :
    50 ≤ prime_select ntt_prime_list 50
    ∧ prime_select ntt_prime_list 5000000000 = 4294967291 :=
  ⟨(c8_create_table_size.2.2.2.1 50 (by norm_num)).1,
   c8_create_table_size.2.2.2.2 5000000000 (by norm_num)⟩

/-- C9: failure paths fail open.  An absent hit list yields pass with no
state; and the final verdict of a request never depends on whether the
allocations behind the inserts succeed (for any configuration whose site
threshold is positive, as every parsed configuration is), so an
allocation failure can only leave a key untracked - it can never convert
a pass into a deny or a deny into anything else. -/
theorem c9_fail_open :
    (∀ (cfg : EvasiveConfig) (ip uri : String) (prevNull mainNull : Bool)
        (t : Int) (aR aS : Bool),
      access_checker cfg none ip uri prevNull mainNull t aR aS = (0, none))
    ∧ (∀ (cfg : EvasiveConfig) (store : Ntt) (ip uri : String)
        (prevNull mainNull : Bool) (t : Int) (a1 a2 a3 a4 : Bool),
      0 < cfg.site_count →
      (access_checker cfg (some store) ip uri prevNull mainNull t a1 a2).1 =
        (access_checker cfg (some store) ip uri prevNull mainNull t a3 a4).1) := by
  refine ⟨fun _ _ _ _ _ _ _ _ => rfl, ?_⟩
  intro cfg store ip uri pN mN t a1 a2 a3 a4 hsc
  unfold access_checker
  dsimp only
  unfold access_checker_body
  by_cases hg : (cfg.enabled && pN && mN) = true
  · rw [if_pos hg, if_pos hg]
    by_cases hw : is_whitelisted ip store = true
    · rw [if_pos hw, if_pos hw]
    · rw [if_neg hw, if_neg hw]
      cases hn : ntt_find store ip with
      | none =>
          dsimp only
          exact checkHits_fst_alloc hsc a1 a2 a3 a4
      | some n =>
          dsimp only
          by_cases hh : t - n.timestamp < cfg.blocking_period
          · rw [if_pos hh, if_pos hh]
          · rw [if_neg hh, if_neg hh]
            exact checkHits_fst_alloc hsc a1 a2 a3 a4
  · rw [if_neg hg, if_neg hg]

/-- C9 witness: with no hit list the request passes; with a concrete
store, the verdict with every allocation failing equals the verdict with
every allocation succeeding. -/
theorem c9_witness :
    access_checker cfg_scenario none "1.2.3.4" "/x" true true 0 true true = (0, none)
    ∧ (access_checker cfg_scenario (some store53) "1.2.3.4" "/x" true true 0
        false false).1 =
      (access_checker cfg_scenario (some store53) "1.2.3.4" "/x" true true 0
        true true).1 :=
  ⟨c9_fail_open.1 cfg_scenario "1.2.3.4" "/x" true true 0 true true,
   c9_fail_open.2 cfg_scenario store53 "1.2.3.4" "/x" true true 0 false false true true
     (by decide)⟩

/-- C10: when an absent key is inserted and the node allocation fails, the
item count is still incremented while the bucket chains are left
unchanged; hence, starting from any store whose reachable entry count is
at most its item count, a failed insert makes the item count strictly
exceed the number of entries reachable from the chains. -/
theorem c10_failed_alloc_overcounts (st : Ntt) (k : String) (ts : Int)
    (hitems : st.items ≠ SIZE_MAX) (habs : ntt_find st k = none) :
    ntt_insert st k ts false = (none, { st with items := st.items + 1 })
    ∧ totalEntries (ntt_insert st k ts false).2 = totalEntries st
    ∧ (totalEntries st ≤ st.items →
        totalEntries (ntt_insert st k ts false).2 <
          (ntt_insert st k ts false).2.items) := by
  have h1 := find_insert_absent_noalloc ts hitems habs
  refine ⟨h1, by rw [h1]; rfl, ?_⟩
  intro hle
  rw [h1]
  dsimp only
  have h2 : totalEntries { st with items := st.items + 1 } = totalEntries st := rfl
  rw [h2]
  omega

/-- C10 witness: a failed insert of "aa" into a fresh store bumps the item
count to 1 while the chains stay empty. -/
theorem c10_witness :
    ntt_insert store53 "aa" 0 false = (none, { store53 with items := store53.items + 1 })
    ∧ totalEntries (ntt_insert store53 "aa" 0 false).2 = totalEntries store53
    ∧ (totalEntries store53 ≤ store53.items →
        totalEntries (ntt_insert store53 "aa" 0 false).2 <
          (ntt_insert store53 "aa" 0 false).2.items) :=
  c10_failed_alloc_overcounts store53 "aa" 0 (by decide) (by decide)

end ModEvasive
